import Mathlib

/-!
Verification of the fund-analysis metrics engine of this repository
(`test_fund_app.py`): the functions `calculate_metrics` and
`calculate_portfolio`, embedded shallowly over `List ℝ`.

Python/pandas floating-point values that can be NaN are modelled by the
type `PF` below (`PF.nan` is IEEE NaN, `PF.val x` a finite real).  The
two NaN sources reachable on positive price series are the sample
standard deviation of fewer than two returns (0/0) and the win-rate
quotient 0/0 on an empty return list; both are made explicit.  The
`f"{x:.2%}"` / `f"{x:.2f}"` string formatting of the source is modelled
by correctly rounding the real value half-to-even at two decimals.
-/

namespace FundApp

/-- A Python float that may be NaN. -/
inductive PF where
  | nan : PF
  | val : ℝ → PF

open Classical in
/-- Rounding of a real to the nearest integer, ties to even: the rounding
applied by Python float formatting at the last displayed digit. -/
noncomputable def roundHalfEven (x : ℝ) : ℤ :=
  if x - ⌊x⌋ < 1 / 2 then ⌊x⌋
  else if 1 / 2 < x - ⌊x⌋ then ⌊x⌋ + 1
  else if Even ⌊x⌋ then ⌊x⌋ else ⌊x⌋ + 1

/-- Two-digit zero-padded rendering of a natural number below 100. -/
def pad2 (k : ℕ) : String :=
  if k < 10 then "0" ++ toString k else toString k

open Classical in
/-- Python `f"{x:.2f}"`: the value rendered with two decimal places. -/
noncomputable def fmtFixed2 (x : ℝ) : String :=
  let n := roundHalfEven (x * 100)
  let sign := if n < 0 ∨ (n = 0 ∧ x < 0) then "-" else ""
  sign ++ toString (n.natAbs / 100) ++ "." ++ pad2 (n.natAbs % 100)

/-- Python `f"{x:.2%}"` on a finite float: scale by 100, two decimals, `%`. -/
noncomputable def fmtPctR (x : ℝ) : String :=
  fmtFixed2 (x * 100) ++ "%"

/-- Python `f"{v:.2%}"` on a possibly-NaN float (`f"{nan:.2%}"` is `"nan%"`). -/
noncomputable def fmtPctF (v : PF) : String :=
  match v with
  | PF.nan => "nan%"
  | PF.val x => fmtPctR x

/-- Python `f"{v:.2f}"` on a possibly-NaN float. -/
noncomputable def fmtFixed2F (v : PF) : String :=
  match v with
  | PF.nan => "nan"
  | PF.val x => fmtFixed2 x

/-- `prices.pct_change().dropna()`: the N-1 period returns
`prices[i]/prices[i-1] - 1` of an N-element series (the leading NaN of
`pct_change` is dropped by `dropna`). -/
noncomputable def periodReturns (prices : List ℝ) : List ℝ :=
  (prices.zip (prices.drop 1)).map (fun p => p.2 / p.1 - 1)

/-- `prices.iloc[-1] / prices.iloc[0] - 1` (the `total_return` local). -/
noncomputable def total_return (prices : List ℝ) : ℝ :=
  prices.getLastD 0 / prices.headD 0 - 1

/-- `(1 + total_return) ** (252 / len(prices)) - 1` (the `annual_return`
local); `**` is real exponentiation. -/
noncomputable def annual_return (prices : List ℝ) : ℝ :=
  (1 + total_return prices) ^ ((252 : ℝ) / prices.length) - 1

/-- Arithmetic mean of a list (`Series.mean()`). -/
noncomputable def listMean (xs : List ℝ) : ℝ :=
  xs.sum / xs.length

/-- `Series.std()`: sample standard deviation with ddof = 1, which is NaN
(0/0) when fewer than two observations are present. -/
noncomputable def sampleStd (xs : List ℝ) : PF :=
  if xs.length ≤ 1 then PF.nan
  else PF.val (Real.sqrt ((xs.map (fun x => (x - listMean xs) ^ 2)).sum /
    ((xs.length : ℝ) - 1)))

/-- `returns.std() * np.sqrt(252)` (the `annual_volatility` local); NaN
propagates through the multiplication. -/
noncomputable def annual_volatility (prices : List ℝ) : PF :=
  match sampleStd (periodReturns prices) with
  | PF.nan => PF.nan
  | PF.val s => PF.val (s * Real.sqrt 252)

open Classical in
/-- `(annual_return - risk_free) / annual_volatility if annual_volatility
> 0 else 0`; the comparison `NaN > 0` is false, so a NaN volatility also
takes the `else 0` branch. -/
noncomputable def sharpe (prices : List ℝ) (risk_free : ℝ) : ℝ :=
  match annual_volatility prices with
  | PF.nan => 0
  | PF.val v => if 0 < v then (annual_return prices - risk_free) / v else 0

/-- Running maximum with accumulator (tail of `prices.cummax()`). -/
noncomputable def cummaxAux (m : ℝ) : List ℝ → List ℝ
  | [] => []
  | p :: rest => max m p :: cummaxAux (max m p) rest

/-- `prices.cummax()`: element `i` is the maximum of `prices[0..i]`. -/
noncomputable def cummax (prices : List ℝ) : List ℝ :=
  match prices with
  | [] => []
  | p :: rest => cummaxAux p (p :: rest)

/-- `(prices - cummax) / cummax` (the `drawdown` series local). -/
noncomputable def drawdowns (prices : List ℝ) : List ℝ :=
  List.zipWith (fun p m => (p - m) / m) prices (cummax prices)

/-- `Series.min()` of a nonempty series. -/
noncomputable def seriesMin : List ℝ → ℝ
  | [] => 0
  | [x] => x
  | x :: y :: rest => min x (seriesMin (y :: rest))

/-- `drawdown.min()` (the `max_drawdown` local). -/
noncomputable def max_drawdown (prices : List ℝ) : ℝ :=
  seriesMin (drawdowns prices)

open Classical in
/-- `annual_return / abs(max_drawdown) if max_drawdown != 0 else 0`
(the `calmar` local). -/
noncomputable def calmar (prices : List ℝ) : ℝ :=
  if max_drawdown prices ≠ 0 then annual_return prices / |max_drawdown prices|
  else 0

open Classical in
/-- `(returns > 0).sum() / len(returns)` (the `win_rate` local): NaN
(0/0) on an empty return list, the count of strictly positive returns
over the number of returns otherwise. -/
noncomputable def win_rate (prices : List ℝ) : PF :=
  if (periodReturns prices).length = 0 then PF.nan
  else PF.val (((periodReturns prices).countP (fun r => decide (0 < r)) : ℝ) /
    ((periodReturns prices).length : ℝ))

/-- The dictionary returned by `calculate_metrics`: each named metric is a
formatted string (percent format or two-decimal ratio format). -/
structure MetricsResult where
  cumulativeReturnText : String
  annualReturnText : String
  annualVolatilityText : String
  sharpeText : String
  maxDrawdownText : String
  calmarText : String
  winRateText : String
  deriving Repr

/-- `calculate_metrics(prices, risk_free)`: computes the seven metrics and
returns them as a dictionary of formatted strings.  On an empty series the
source raises `IndexError` at `prices.iloc[-1]`, modelled as `none`; it
performs no other input validation. -/
noncomputable def calculate_metrics (prices : List ℝ) (risk_free : ℝ) :
    Option MetricsResult :=
  if prices.isEmpty then none
  else some ⟨
    fmtPctR (total_return prices),
    fmtPctR (annual_return prices),
    fmtPctF (annual_volatility prices),
    fmtFixed2 (sharpe prices risk_free),
    fmtPctR (max_drawdown prices),
    fmtFixed2 (calmar prices),
    fmtPctF (win_rate prices)⟩

/-- `calculate_portfolio(df, weights)`: starts from the zero series on the
frame's index (length `n`) and accumulates `df[fund] * weight` for each
entry of the weight mapping. -/
noncomputable def calculate_portfolio (df : String → List ℝ) (weights : List (String × ℝ))
    (n : ℕ) : List ℝ :=
  weights.foldl
    (fun acc fw => List.zipWith (· + ·) acc ((df fw.1).map (· * fw.2)))
    (List.replicate n 0)

/-- Whether a string is a plain decimal numeral (digits, dot, sign): the
shape a "numeric value" would print as, as opposed to the percent-suffixed
strings `calculate_metrics` actually returns. -/
def isNumeral (s : String) : Bool :=
  s.data.all (fun c => c.isDigit || c = '.' || c = '-')

/-- The period-return sequence written as the spec defines it, by direct
recursion: `return[i] = price[i]/price[i-1] - 1` for `i ≥ 1`. -/
noncomputable def specPeriodReturns : List ℝ → List ℝ
  | p0 :: p1 :: rest => (p1 / p0 - 1) :: specPeriodReturns (p1 :: rest)
  | _ => []

/-- The spec's annualized-volatility formula, written independently of the
embedding of the source: sample (N-1 denominator) standard deviation over
the period returns, times `sqrt 252`; undefined (NaN) when fewer than two
returns exist. -/
noncomputable def specAnnualVolatility (prices : List ℝ) : PF :=
  if (specPeriodReturns prices).length < 2 then PF.nan
  else PF.val (Real.sqrt
    (((specPeriodReturns prices).map
        (fun r => (r - listMean (specPeriodReturns prices)) ^ 2)).sum /
      (((specPeriodReturns prices).length : ℝ) - 1)) * Real.sqrt 252)

/-- The spec's aggregation formula: `portfolio[i] = Σ weight[f] * price_f[i]`. -/
noncomputable def portfolioSpec (df : String → List ℝ)
    (weights : List (String × ℝ)) (n : ℕ) : List ℝ :=
  (List.range n).map
    (fun i => (weights.map (fun fw => fw.2 * (df fw.1).getD i 0)).sum)

lemma periodReturns_nil : periodReturns [] = [] := rfl

lemma periodReturns_single (a : ℝ) : periodReturns [a] = [] := rfl

lemma periodReturns_cons_cons (a b : ℝ) (l : List ℝ) :
    periodReturns (a :: b :: l) = (b / a - 1) :: periodReturns (b :: l) := rfl

lemma periodReturns_length (l : List ℝ) :
    (periodReturns l).length = l.length - 1 := by
  simp [periodReturns]

lemma sampleStd_short (xs : List ℝ) (h : xs.length ≤ 1) :
    sampleStd xs = PF.nan := by
  rw [sampleStd, if_pos h]

lemma annual_volatility_nan_of_short (prices : List ℝ)
    (h : prices.length ≤ 2) : annual_volatility prices = PF.nan := by
  have hs : sampleStd (periodReturns prices) = PF.nan :=
    sampleStd_short _ (by rw [periodReturns_length]; omega)
  simp only [annual_volatility, hs]

lemma sharpe_of_nan (prices : List ℝ) (r : ℝ)
    (h : annual_volatility prices = PF.nan) : sharpe prices r = 0 := by
  simp only [sharpe, h]

lemma sharpe_of_val_zero (prices : List ℝ) (r : ℝ)
    (h : annual_volatility prices = PF.val 0) : sharpe prices r = 0 := by
  simp only [sharpe, h]
  norm_num

lemma calmar_of_zero (prices : List ℝ) (h : max_drawdown prices = 0) :
    calmar prices = 0 := by
  simp only [calmar, h]
  norm_num

/-- Claim C3: on a valid price series, zero annualized volatility forces a
Sharpe ratio of 0 and zero max drawdown forces a Calmar ratio of 0; both
are returned normally, not errors. -/
theorem C3_degenerate_ratios_zero (prices : List ℝ) (r : ℝ)
    (hlen : 2 ≤ prices.length) (hpos : ∀ p ∈ prices, 0 < p) :
    (annual_volatility prices = PF.val 0 → sharpe prices r = 0) ∧
    (max_drawdown prices = 0 → calmar prices = 0) := by
  exact ⟨fun h => sharpe_of_val_zero prices r h, fun h => calmar_of_zero prices h⟩

/-- Claim C10: on a two-element price series the annualized volatility is
NaN (sample standard deviation of a single return is 0/0), the Sharpe
ratio is 0 because NaN fails the `> 0` guard, and the returned metric
string is `"nan%"`. -/
theorem C10_length_two_volatility_nan (prices : List ℝ) (r : ℝ)
    (hlen : prices.length = 2) (hpos : ∀ p ∈ prices, 0 < p) :
    annual_volatility prices = PF.nan ∧ sharpe prices r = 0 ∧
    (calculate_metrics prices r).map MetricsResult.annualVolatilityText =
      some "nan%" := by
  have hv : annual_volatility prices = PF.nan :=
    annual_volatility_nan_of_short prices (by omega)
  have hne : ¬ prices.isEmpty := by
    cases prices with
    | nil => simp at hlen
    | cons a t => simp
  refine ⟨hv, sharpe_of_nan prices r hv, ?_⟩
  simp only [calculate_metrics, hne, if_neg, Bool.false_eq_true,
    not_false_eq_true, if_false, Option.map_some]
  simp [fmtPctF, hv]

/-- Witness for C10 at the concrete series `[1, 2]`. -/
theorem C10_length_two_volatility_nan_witness :
    annual_volatility [1, 2] = PF.nan ∧ sharpe [1, 2] 0 = 0 ∧
    (calculate_metrics [1, 2] 0).map MetricsResult.annualVolatilityText =
      some "nan%" :=
  C10_length_two_volatility_nan [1, 2] 0 (by simp) (by norm_num)

lemma roundHalfEven_zero : roundHalfEven 0 = 0 := by
  rw [roundHalfEven]
  norm_num

lemma fmtFixed2_zero : fmtFixed2 (0 : ℝ) = "0.00" := by
  have h : roundHalfEven ((0 : ℝ) * 100) = 0 := by
    rw [zero_mul]; exact roundHalfEven_zero
  rw [fmtFixed2]
  simp only [h]
  norm_num
  decide

lemma fmtPctR_zero : fmtPctR (0 : ℝ) = "0.00%" := by
  rw [fmtPctR, zero_mul, fmtFixed2_zero]
  decide

lemma total_return_single (a : ℝ) (ha : a ≠ 0) : total_return [a] = 0 := by
  simp [total_return, div_self ha]

lemma annual_return_of_flat (prices : List ℝ) (h : total_return prices = 0) :
    annual_return prices = 0 := by
  rw [annual_return, h]
  norm_num

lemma win_rate_single (a : ℝ) : win_rate [a] = PF.nan := by
  simp [win_rate, periodReturns_single]

/-- Full evaluation of `calculate_metrics` on the one-element series `[1]`:
no error, a result record with NaN volatility and NaN win rate. -/
lemma calculate_metrics_single_one (r : ℝ) :
    calculate_metrics [1] r =
      some ⟨"0.00%", "0.00%", "nan%", "0.00", "0.00%", "0.00", "nan%"⟩ := by
  have hv : annual_volatility [1] = PF.nan :=
    annual_volatility_nan_of_short _ (by simp)
  have htr : total_return [1] = 0 := total_return_single 1 one_ne_zero
  have har : annual_return [1] = 0 := annual_return_of_flat _ htr
  have hmdd : max_drawdown [1] = 0 := by
    norm_num [max_drawdown, drawdowns, cummax, cummaxAux, seriesMin]
  have hsh : sharpe [1] r = 0 := sharpe_of_nan _ _ hv
  have hcal : calmar [1] = 0 := calmar_of_zero _ hmdd
  have hwr : win_rate [1] = PF.nan := win_rate_single 1
  simp only [calculate_metrics, List.isEmpty_cons, if_false, Bool.false_eq_true,
    htr, har, hv, hmdd, hsh, hcal, hwr, fmtPctR_zero, fmtFixed2_zero, fmtPctF]

/-- Full evaluation of `calculate_metrics` on the flat pair `[1, 1]`. -/
lemma calculate_metrics_pair_ones (r : ℝ) :
    calculate_metrics [1, 1] r =
      some ⟨"0.00%", "0.00%", "nan%", "0.00", "0.00%", "0.00", "0.00%"⟩ := by
  have hv : annual_volatility [1, 1] = PF.nan :=
    annual_volatility_nan_of_short _ (by simp)
  have htr : total_return [1, 1] = 0 := by norm_num [total_return]
  have har : annual_return [1, 1] = 0 := annual_return_of_flat _ htr
  have hmdd : max_drawdown [1, 1] = 0 := by
    norm_num [max_drawdown, drawdowns, cummax, cummaxAux, seriesMin]
  have hsh : sharpe [1, 1] r = 0 := sharpe_of_nan _ _ hv
  have hcal : calmar [1, 1] = 0 := calmar_of_zero _ hmdd
  have hwr : win_rate [1, 1] = PF.val 0 := by
    rw [win_rate]
    rw [if_neg (by simp [periodReturns_length])]
    have hpr : periodReturns [1, 1] = [0] := by
      rw [periodReturns_cons_cons, periodReturns_single]
      norm_num
    rw [hpr]
    norm_num
  simp only [calculate_metrics, List.isEmpty_cons, if_false, Bool.false_eq_true,
    htr, har, hv, hmdd, hsh, hcal, hwr, fmtPctR_zero, fmtFixed2_zero, fmtPctF]

/-- Claim C1 (counterexample): on the single-element series `[1]` (N = 1 <
2), `calculate_metrics` does not fail at all: it returns a `MetricsResult`
(with NaN volatility and win rate), so no InvalidInput error is raised. -/
theorem C1_counterexample :
    calculate_metrics [1] 0.025 =
      some ⟨"0.00%", "0.00%", "nan%", "0.00", "0.00%", "0.00", "nan%"⟩ ∧
    calculate_metrics [1] 0.025 ≠ none := by
  refine ⟨calculate_metrics_single_one 0.025, ?_⟩
  rw [calculate_metrics_single_one 0.025]
  simp

/-- Claim C1 (amended): `calculate_metrics` performs no input validation
and has no InvalidInput error path; on a single-element series it returns
a `MetricsResult` whose annualized volatility and win rate are NaN and
whose other metrics are 0, for every risk-free rate. -/
theorem C1_no_validation_single_element (r : ℝ) :
    calculate_metrics [1] r =
      some ⟨"0.00%", "0.00%", "nan%", "0.00", "0.00%", "0.00", "nan%"⟩ :=
  calculate_metrics_single_one r

/-- Claim C4 (counterexample): the result fields of `calculate_metrics` are
formatted strings, not numbers: on `[1, 1]` the cumulative-return field is
the string `"0.00%"`, which is not a plain decimal numeral. -/
theorem C4_counterexample :
    (calculate_metrics [1, 1] 0).map MetricsResult.cumulativeReturnText =
      some "0.00%" ∧ isNumeral "0.00%" = false := by
  refine ⟨?_, by decide⟩
  rw [calculate_metrics_pair_ones 0]
  rfl

lemma fmtPctF_has_percent (v : PF) : ∃ t, fmtPctF v = t ++ "%" := by
  cases v with
  | nan => exact ⟨"nan", rfl⟩
  | val x => exact ⟨fmtFixed2 (x * 100), rfl⟩

lemma pad2_length : ∀ k, k < 100 → (pad2 k).length = 2 := by decide

/-- Every finite-value `f"{x:.2f}"` rendering has exactly two digits after
its decimal point. -/
lemma fmtFixed2_two_decimals (x : ℝ) :
    ∃ t u, fmtFixed2 x = t ++ "." ++ u ∧ u.length = 2 := by
  rw [fmtFixed2]
  exact ⟨_, pad2 ((roundHalfEven (x * 100)).natAbs % 100), rfl,
    pad2_length _ (Nat.mod_lt _ (by norm_num))⟩

/-- Claim C4 (amended): every `MetricsResult` returned by
`calculate_metrics` maps the named metrics to formatted strings, each
obtained by formatting the corresponding numeric metric value: the
return, volatility, drawdown and win-rate fields are percent strings
(suffix `"%"`), and the Sharpe and Calmar fields are two-decimal ratio
strings (exactly two digits after the decimal point). -/
theorem C4_fields_are_formatted_strings (prices : List ℝ) (r : ℝ)
    (m : MetricsResult) (h : calculate_metrics prices r = some m) :
    m.cumulativeReturnText = fmtPctR (total_return prices) ∧
    m.annualReturnText = fmtPctR (annual_return prices) ∧
    m.annualVolatilityText = fmtPctF (annual_volatility prices) ∧
    m.sharpeText = fmtFixed2 (sharpe prices r) ∧
    m.maxDrawdownText = fmtPctR (max_drawdown prices) ∧
    m.calmarText = fmtFixed2 (calmar prices) ∧
    m.winRateText = fmtPctF (win_rate prices) ∧
    (∃ t, m.cumulativeReturnText = t ++ "%") ∧
    (∃ t, m.annualReturnText = t ++ "%") ∧
    (∃ t, m.annualVolatilityText = t ++ "%") ∧
    (∃ t, m.maxDrawdownText = t ++ "%") ∧
    (∃ t, m.winRateText = t ++ "%") ∧
    (∃ t u, m.sharpeText = t ++ "." ++ u ∧ u.length = 2) ∧
    (∃ t u, m.calmarText = t ++ "." ++ u ∧ u.length = 2) := by
  rw [calculate_metrics] at h
  by_cases he : prices.isEmpty
  · rw [if_pos he] at h
    exact absurd h (by simp)
  · rw [if_neg he] at h
    have hm := (Option.some.injEq _ _).mp h
    subst hm
    refine ⟨rfl, rfl, rfl, rfl, rfl, rfl, rfl,
      ⟨fmtFixed2 (total_return prices * 100), rfl⟩,
      ⟨fmtFixed2 (annual_return prices * 100), rfl⟩,
      fmtPctF_has_percent _,
      ⟨fmtFixed2 (max_drawdown prices * 100), rfl⟩,
      fmtPctF_has_percent _,
      fmtFixed2_two_decimals _,
      fmtFixed2_two_decimals _⟩

/-- Witness for C4 (amended) at the concrete series `[1, 1]`. -/
theorem C4_fields_are_formatted_strings_witness :
    "0.00%" = fmtPctR (total_return [1, 1]) ∧
    "0.00%" = fmtPctR (annual_return [1, 1]) ∧
    "nan%" = fmtPctF (annual_volatility [1, 1]) ∧
    "0.00" = fmtFixed2 (sharpe [1, 1] 0) ∧
    "0.00%" = fmtPctR (max_drawdown [1, 1]) ∧
    "0.00" = fmtFixed2 (calmar [1, 1]) ∧
    "0.00%" = fmtPctF (win_rate [1, 1]) ∧
    (∃ t, "0.00%" = t ++ "%") ∧ (∃ t, "0.00%" = t ++ "%") ∧
    (∃ t, "nan%" = t ++ "%") ∧ (∃ t, "0.00%" = t ++ "%") ∧
    (∃ t, "0.00%" = t ++ "%") ∧
    (∃ t u, "0.00" = t ++ "." ++ u ∧ u.length = 2) ∧
    (∃ t u, "0.00" = t ++ "." ++ u ∧ u.length = 2) :=
  C4_fields_are_formatted_strings [1, 1] 0
    ⟨"0.00%", "0.00%", "nan%", "0.00", "0.00%", "0.00", "0.00%"⟩
    (calculate_metrics_pair_ones 0)

lemma zipWith_add_replicate_zero (l : List ℝ) :
    List.zipWith (· + ·) (List.replicate l.length 0) l = l := by
  induction l with
  | nil => rfl
  | cons a t ih => simp [List.replicate_succ, ih]

lemma zipWith_add_map_map (f g : ℝ → ℝ) (l1 l2 : List ℝ) :
    List.zipWith (· + ·) (l1.map f) (l2.map g) =
      List.zipWith (fun x y => f x + g y) l1 l2 := by
  induction l1 generalizing l2 with
  | nil => rfl
  | cons a t ih =>
    cases l2 with
    | nil => rfl
    | cons b s => simp [ih]

/-- `calculate_portfolio` on a two-entry weight mapping is the elementwise
weighted sum of the two series, whatever the weights are. -/
lemma calculate_portfolio_two (df : String → List ℝ) (wa wb : ℝ) (n : ℕ)
    (hA : (df "A").length = n) :
    calculate_portfolio df [("A", wa), ("B", wb)] n =
      List.zipWith (fun x y => x * wa + y * wb) (df "A") (df "B") := by
  rw [calculate_portfolio]
  simp only [List.foldl_cons, List.foldl_nil]
  have h1 : List.zipWith (· + ·) (List.replicate n (0 : ℝ))
      ((df "A").map (· * wa)) = (df "A").map (· * wa) := by
    have := zipWith_add_replicate_zero ((df "A").map (· * wa))
    rwa [List.length_map, hA] at this
  rw [h1, zipWith_add_map_map]

/-- The example data frame of claim C2: two funds `A` and `B`. -/
noncomputable def exampleFrame : String → List ℝ := fun f =>
  if f = "A" then [1, 2] else if f = "B" then [3, 4] else []

/-- Claim C2 (counterexample): with weights {A: 0.4, B: 0.4}, whose sum 0.8
is not within 1e-6 of 1.0, `calculate_portfolio` does not fail: it returns
the weighted-sum series `[1.6, 2.4]` for the frame A = [1, 2], B = [3, 4]. -/
theorem C2_counterexample :
    calculate_portfolio exampleFrame [("A", 0.4), ("B", 0.4)] 2 =
      [1.6, 2.4] := by
  have hA : exampleFrame "A" = [1, 2] := by rw [exampleFrame]; norm_num
  have hB : exampleFrame "B" = [3, 4] := by
    rw [exampleFrame]
    rw [if_neg (by decide), if_pos rfl]
  rw [calculate_portfolio_two exampleFrame 0.4 0.4 2 (by rw [hA]; rfl),
    hA, hB]
  norm_num

/-- Claim C2 (amended): `calculate_portfolio` performs no weight
validation: for any two series of the frame's length and any weights —
including weights summing to 0.8 — it returns the elementwise weighted sum
instead of failing with InvalidInput. -/
theorem C2_no_weight_validation (df : String → List ℝ) (wa wb : ℝ) (n : ℕ)
    (hA : (df "A").length = n) (hB : (df "B").length = n) :
    calculate_portfolio df [("A", wa), ("B", wb)] n =
      List.zipWith (fun x y => x * wa + y * wb) (df "A") (df "B") :=
  calculate_portfolio_two df wa wb n hA

/-- Witness for C2 (amended) at the concrete frame A = [1, 2], B = [3, 4]
with the non-normalized weights {A: 0.4, B: 0.4}. -/
theorem C2_no_weight_validation_witness :
    calculate_portfolio exampleFrame [("A", 0.4), ("B", 0.4)] 2 =
      List.zipWith (fun x y => x * 0.4 + y * 0.4) (exampleFrame "A")
        (exampleFrame "B") :=
  C2_no_weight_validation exampleFrame 0.4 0.4 2
    (by rw [exampleFrame]; norm_num)
    (by rw [exampleFrame]; rw [if_neg (by decide), if_pos rfl]; rfl)

lemma map_half_add_half (S : List ℝ) :
    S.map (fun x => x * 0.5 + x * 0.5) = S := by
  induction S with
  | nil => rfl
  | cons a t ih =>
    rw [List.map_cons, ih]
    congr 1
    ring

lemma zipWith_self_eq_map (f : ℝ → ℝ → ℝ) (l : List ℝ) :
    List.zipWith f l l = l.map (fun x => f x x) := by
  induction l with
  | nil => rfl
  | cons a t ih => simp [ih]

/-- Claim C9: aggregating two identical constituents with weights
{A: 0.5, B: 0.5} returns the constituent series unchanged. -/
theorem C9_idempotent_on_identical (S : List ℝ) :
    calculate_portfolio (fun _ => S) [("A", 0.5), ("B", 0.5)] S.length = S := by
  rw [calculate_portfolio_two (fun _ => S) 0.5 0.5 S.length rfl]
  rw [zipWith_self_eq_map, map_half_add_half]

lemma specPeriodReturns_eq (l : List ℝ) :
    specPeriodReturns l = periodReturns l := by
  induction l with
  | nil => rfl
  | cons a t ih =>
    cases t with
    | nil => rfl
    | cons b r =>
      rw [specPeriodReturns, periodReturns_cons_cons, ← ih]

/-- Claim C5: the annualized volatility computed by the source equals the
spec's formula — the sample (N-1 denominator) standard deviation of the
N-1 period returns, multiplied by sqrt 252 — for every price series. -/
theorem C5_volatility_is_annualized_sample_std (prices : List ℝ) :
    annual_volatility prices = specAnnualVolatility prices ∧
    (specPeriodReturns prices).length = prices.length - 1 := by
  have he := specPeriodReturns_eq prices
  constructor
  · rw [specAnnualVolatility, he, annual_volatility]
    by_cases h : (periodReturns prices).length ≤ 1
    · rw [sampleStd, if_pos h, if_pos (by omega)]
    · rw [sampleStd, if_neg h, if_neg (by omega)]
  · rw [he, periodReturns_length]

lemma periodReturns_replicate (c : ℝ) (hc : c ≠ 0) (k : ℕ) :
    periodReturns (List.replicate k c) = List.replicate (k - 1) 0 := by
  induction k with
  | zero => rfl
  | succ m ih =>
    cases m with
    | zero => rfl
    | succ j =>
      have h2 : List.replicate (j + 2) c = c :: c :: List.replicate j c := rfl
      have h1 : List.replicate (j + 1) c = c :: List.replicate j c := rfl
      rw [h2, periodReturns_cons_cons, ← h1, ih, div_self hc, sub_self]
      rfl

lemma listMean_replicate_zero (k : ℕ) :
    listMean (List.replicate k (0 : ℝ)) = 0 := by
  simp [listMean]

lemma sampleStd_replicate_zero (k : ℕ) (hk : 2 ≤ k) :
    sampleStd (List.replicate k (0 : ℝ)) = PF.val 0 := by
  rw [sampleStd, if_neg (by simp; omega)]
  congr 1
  rw [List.map_replicate, listMean_replicate_zero]
  norm_num

lemma annual_volatility_replicate (c : ℝ) (hc : c ≠ 0) (k : ℕ) (hk : 3 ≤ k) :
    annual_volatility (List.replicate k c) = PF.val 0 := by
  rw [annual_volatility, periodReturns_replicate c hc,
    sampleStd_replicate_zero (k - 1) (by omega)]
  norm_num

lemma cummaxAux_const (c : ℝ) (k : ℕ) :
    cummaxAux c (List.replicate k c) = List.replicate k c := by
  induction k with
  | zero => rfl
  | succ m ih =>
    have h1 : List.replicate (m + 1) c = c :: List.replicate m c := rfl
    rw [h1, cummaxAux, max_self, ih]

lemma cummax_replicate (c : ℝ) (k : ℕ) :
    cummax (List.replicate k c) = List.replicate k c := by
  cases k with
  | zero => rfl
  | succ m =>
    have h1 : List.replicate (m + 1) c = c :: List.replicate m c := rfl
    rw [h1, cummax, ← h1, cummaxAux_const]

lemma zipWith_replicate_same (f : ℝ → ℝ → ℝ) (c d : ℝ) (k : ℕ) :
    List.zipWith f (List.replicate k c) (List.replicate k d) =
      List.replicate k (f c d) := by
  induction k with
  | zero => rfl
  | succ m ih => simp [List.replicate_succ, ih]

lemma seriesMin_replicate_zero (k : ℕ) (hk : 1 ≤ k) :
    seriesMin (List.replicate k (0 : ℝ)) = 0 := by
  induction k with
  | zero => omega
  | succ m ih =>
    cases m with
    | zero => rfl
    | succ j =>
      have h2 : List.replicate (j + 2) (0 : ℝ) = 0 :: 0 :: List.replicate j 0 :=
        rfl
      have h1 : List.replicate (j + 1) (0 : ℝ) = 0 :: List.replicate j 0 := rfl
      rw [h2, seriesMin, ← h1, ih (by omega), min_self]

lemma max_drawdown_replicate (c : ℝ) (k : ℕ) (hk : 1 ≤ k) :
    max_drawdown (List.replicate k c) = 0 := by
  rw [max_drawdown, drawdowns, cummax_replicate, zipWith_replicate_same]
  rw [sub_self, zero_div]
  exact seriesMin_replicate_zero k hk

lemma countP_pos_replicate_zero (k : ℕ) :
    (List.replicate k (0 : ℝ)).countP (fun r => decide (0 < r)) = 0 := by
  induction k with
  | zero => rfl
  | succ m ih => simp [List.replicate_succ, List.countP_cons, ih]

lemma win_rate_replicate (c : ℝ) (hc : c ≠ 0) (k : ℕ) (hk : 2 ≤ k) :
    win_rate (List.replicate k c) = PF.val 0 := by
  rw [win_rate, if_neg (by rw [periodReturns_length]; simp; omega)]
  rw [periodReturns_replicate c hc, countP_pos_replicate_zero]
  norm_num

lemma total_return_replicate (c : ℝ) (hc : c ≠ 0) (k : ℕ) (hk : 1 ≤ k) :
    total_return (List.replicate k c) = 0 := by
  cases k with
  | zero => omega
  | succ m =>
    rw [total_return]
    have hh : (List.replicate (m + 1) c).headD 0 = c := by
      rw [List.replicate_succ]; rfl
    have hl : (List.replicate (m + 1) c).getLastD 0 = c := by
      rw [List.getLastD_eq_getLast?, List.getLast?_replicate]
      simp
    rw [hh, hl, div_self hc, sub_self]

/-- Claim C6 (counterexample): the flat series `[1, 1]` has length ≥ 2 and
every value equal to the first, yet its annualized volatility is NaN — the
sample standard deviation of its single period return is 0/0 — not 0. -/
theorem C6_counterexample :
    annual_volatility [1, 1] = PF.nan ∧
    annual_volatility [1, 1] ≠ PF.val 0 := by
  have h := annual_volatility_nan_of_short [1, 1] (by simp)
  exact ⟨h, by rw [h]; exact fun hx => PF.noConfusion hx⟩

/-- Claim C6 (amended): on a flat positive price series of length ≥ 2 the
annualized return, Sharpe ratio, max drawdown, Calmar ratio and win rate
are all 0; the annualized volatility is 0 when the length is at least 3,
but NaN when the length is exactly 2. -/
theorem C6_flat_series (prices : List ℝ) (c r : ℝ)
    (hlen : 2 ≤ prices.length) (hflat : ∀ p ∈ prices, p = c) (hc : 0 < c) :
    annual_return prices = 0 ∧ sharpe prices r = 0 ∧
    max_drawdown prices = 0 ∧ calmar prices = 0 ∧
    win_rate prices = PF.val 0 ∧
    annual_volatility prices =
      (if prices.length = 2 then PF.nan else PF.val 0) := by
  have hc0 : c ≠ 0 := ne_of_gt hc
  have hrep : prices = List.replicate prices.length c :=
    List.eq_replicate_of_mem hflat
  have hv : annual_volatility prices =
      (if prices.length = 2 then PF.nan else PF.val 0) := by
    by_cases h2 : prices.length = 2
    · rw [if_pos h2]
      exact annual_volatility_nan_of_short prices (by omega)
    · rw [if_neg h2, hrep]
      exact annual_volatility_replicate c hc0 prices.length (by omega)
  have htr : total_return prices = 0 := by
    rw [hrep]; exact total_return_replicate c hc0 prices.length (by omega)
  have hmdd : max_drawdown prices = 0 := by
    rw [hrep]; exact max_drawdown_replicate c prices.length (by omega)
  have hsh : sharpe prices r = 0 := by
    by_cases h2 : prices.length = 2
    · exact sharpe_of_nan prices r (by rw [hv, if_pos h2])
    · exact sharpe_of_val_zero prices r (by rw [hv, if_neg h2])
  refine ⟨annual_return_of_flat prices htr, hsh, hmdd, calmar_of_zero prices hmdd,
    ?_, hv⟩
  rw [hrep]
  exact win_rate_replicate c hc0 prices.length (by omega)

/-- Witness for C6 (amended) at the concrete flat series `[1, 1, 1]`. -/
theorem C6_flat_series_witness :
    annual_return [1, 1, 1] = 0 ∧ sharpe [1, 1, 1] 0.025 = 0 ∧
    max_drawdown [1, 1, 1] = 0 ∧ calmar [1, 1, 1] = 0 ∧
    win_rate [1, 1, 1] = PF.val 0 ∧
    annual_volatility [1, 1, 1] =
      (if ([1, 1, 1] : List ℝ).length = 2 then PF.nan else PF.val 0) :=
  C6_flat_series [1, 1, 1] 1 0.025 (by simp) (by simp) one_pos

/-- Witness for C3 at the concrete flat series `[1, 1, 1]`, where the
volatility and the max drawdown are both 0. -/
theorem C3_degenerate_ratios_zero_witness :
    sharpe [1, 1, 1] 0.025 = 0 ∧ calmar [1, 1, 1] = 0 := by
  have hv : annual_volatility [1, 1, 1] = PF.val 0 :=
    annual_volatility_replicate 1 one_ne_zero 3 (by omega)
  have hm : max_drawdown [1, 1, 1] = 0 :=
    max_drawdown_replicate 1 3 (by omega)
  have h := C3_degenerate_ratios_zero [1, 1, 1] 0.025 (by simp) (by norm_num)
  exact ⟨h.1 hv, h.2 hm⟩

lemma cummaxAux_of_chain_lt (l : List ℝ) :
    ∀ m : ℝ, List.Chain (· < ·) m l → cummaxAux m l = l := by
  induction l with
  | nil => intro m _; rfl
  | cons p rest ih =>
    intro m h
    rcases List.chain_cons.mp h with ⟨h1, h2⟩
    rw [cummaxAux, max_eq_right h1.le, ih p h2]

lemma cummax_of_chain_lt (prices : List ℝ)
    (h : prices.Chain' (· < ·)) : cummax prices = prices := by
  cases prices with
  | nil => rfl
  | cons p rest =>
    rw [cummax, cummaxAux, max_self, cummaxAux_of_chain_lt rest p h]

lemma map_sub_div_self (l : List ℝ) :
    l.map (fun p => (p - p) / p) = List.replicate l.length 0 := by
  induction l with
  | nil => rfl
  | cons a t ih => simp [List.replicate_succ, ih]

lemma max_drawdown_of_chain_lt (prices : List ℝ) (hn : 1 ≤ prices.length)
    (h : prices.Chain' (· < ·)) : max_drawdown prices = 0 := by
  rw [max_drawdown, drawdowns, cummax_of_chain_lt prices h,
    zipWith_self_eq_map, map_sub_div_self]
  exact seriesMin_replicate_zero prices.length hn

lemma periodReturns_pos_of_chain (l : List ℝ) (hc : l.Chain' (· < ·))
    (hp : ∀ p ∈ l, 0 < p) : ∀ x ∈ periodReturns l, 0 < x := by
  induction l with
  | nil => intro x hx; rw [periodReturns_nil] at hx; cases hx
  | cons a t ih =>
    cases t with
    | nil => intro x hx; rw [periodReturns_single] at hx; cases hx
    | cons b r =>
      intro x hx
      rw [periodReturns_cons_cons] at hx
      rcases List.chain'_cons.mp hc with ⟨hab, hc2⟩
      rcases List.mem_cons.mp hx with h1 | h2
      · subst h1
        have ha : 0 < a := hp a (by simp)
        have : 1 < b / a := (one_lt_div ha).mpr hab
        linarith
      · exact ih hc2 (fun p hpm => hp p (List.mem_cons_of_mem a hpm)) x h2

/-- Claim C7: on a strictly increasing positive price series of length at
least 2, the max drawdown is 0 and the win rate is 1. -/
theorem C7_strictly_increasing (prices : List ℝ)
    (hlen : 2 ≤ prices.length) (hpos : ∀ p ∈ prices, 0 < p)
    (hinc : prices.Chain' (· < ·)) :
    max_drawdown prices = 0 ∧ win_rate prices = PF.val 1 := by
  refine ⟨max_drawdown_of_chain_lt prices (by omega) hinc, ?_⟩
  have hlr : (periodReturns prices).length = prices.length - 1 :=
    periodReturns_length prices
  rw [win_rate, if_neg (by omega)]
  have hall : (periodReturns prices).countP (fun r => decide (0 < r)) =
      (periodReturns prices).length := by
    rw [List.countP_eq_length]
    intro x hx
    exact decide_eq_true (periodReturns_pos_of_chain prices hinc hpos x hx)
  rw [hall]
  congr 1
  rw [div_self]
  have : 0 < (periodReturns prices).length := by omega
  exact_mod_cast Nat.pos_iff_ne_zero.mp this

/-- Witness for C7 at the concrete series `[1, 2]`. -/
theorem C7_strictly_increasing_witness :
    max_drawdown [1, 2] = 0 ∧ win_rate [1, 2] = PF.val 1 :=
  C7_strictly_increasing [1, 2] (by simp) (by norm_num)
    (by norm_num [List.chain'_cons, List.chain'_singleton])

lemma zipWith_getD (f : ℝ → ℝ → ℝ) (as : List ℝ) :
    ∀ (bs : List ℝ) (i : ℕ), i < as.length → i < bs.length →
      (List.zipWith f as bs).getD i 0 = f (as.getD i 0) (bs.getD i 0) := by
  induction as with
  | nil => intro bs i hi _; simp at hi
  | cons a t ih =>
    intro bs i hi hj
    cases bs with
    | nil => simp at hj
    | cons b s =>
      cases i with
      | zero => rfl
      | succ j =>
        simp only [List.zipWith_cons_cons, List.getD_cons_succ]
        exact ih s j (by simpa using hi) (by simpa using hj)

lemma map_getD (f : ℝ → ℝ) (l : List ℝ) :
    ∀ i : ℕ, i < l.length → (l.map f).getD i 0 = f (l.getD i 0) := by
  induction l with
  | nil => intro i hi; simp at hi
  | cons a t ih =>
    intro i hi
    cases i with
    | zero => rfl
    | succ j =>
      simp only [List.map_cons, List.getD_cons_succ]
      exact ih j (by simpa using hi)

lemma list_eq_range_map (l : List ℝ) :
    (List.range l.length).map (fun i => l.getD i 0) = l := by
  induction l with
  | nil => rfl
  | cons a t ih =>
    rw [List.length_cons, List.range_succ_eq_map, List.map_cons, List.map_map]
    have h : (List.range t.length).map ((fun i => (a :: t).getD i 0) ∘ Nat.succ)
        = (List.range t.length).map (fun i => t.getD i 0) :=
      List.map_congr_left (fun i _ => rfl)
    rw [h, ih]
    rfl

lemma getD_mem_of_lt (l : List ℝ) :
    ∀ i : ℕ, i < l.length → l.getD i 0 ∈ l := by
  induction l with
  | nil => intro i hi; simp at hi
  | cons a t ih =>
    intro i hi
    cases i with
    | zero => simp
    | succ j =>
      rw [List.getD_cons_succ]
      exact List.mem_cons_of_mem a (ih j (by simpa using hi))

/-- The accumulating fold of `calculate_portfolio` computed pointwise:
starting from any series of the index length, it adds the weighted sum of
the constituents at every position. -/
lemma portfolio_foldl_getD (df : String → List ℝ) (n : ℕ)
    (ws : List (String × ℝ)) (hlen : ∀ fw ∈ ws, (df fw.1).length = n) :
    ∀ acc : List ℝ, acc.length = n →
      ws.foldl
        (fun acc fw => List.zipWith (· + ·) acc ((df fw.1).map (· * fw.2)))
        acc =
      (List.range n).map (fun i =>
        acc.getD i 0 + (ws.map (fun fw => fw.2 * (df fw.1).getD i 0)).sum) := by
  induction ws with
  | nil =>
    intro acc hacc
    simp only [List.foldl_nil, List.map_nil, List.sum_nil, add_zero]
    rw [← hacc, list_eq_range_map]
  | cons fw rest ih =>
    intro acc hacc
    rw [List.foldl_cons]
    have hfw : (df fw.1).length = n := hlen fw (List.mem_cons_self fw rest)
    have hstep : (List.zipWith (· + ·) acc ((df fw.1).map (· * fw.2))).length
        = n := by
      rw [List.length_zipWith, List.length_map, hacc, hfw, min_self]
    rw [ih (fun x hx => hlen x (List.mem_cons_of_mem fw hx)) _ hstep]
    apply List.map_congr_left
    intro i hi
    have hin : i < n := List.mem_range.mp hi
    rw [zipWith_getD _ acc _ i (by omega) (by rw [List.length_map]; omega),
      map_getD _ _ i (by omega)]
    rw [List.map_cons, List.sum_cons]
    ring

lemma getD_replicate_zero (n : ℕ) :
    ∀ i : ℕ, (List.replicate n (0 : ℝ)).getD i 0 = 0 := by
  induction n with
  | zero => intro i; rfl
  | succ m ih =>
    intro i
    cases i with
    | zero => rfl
    | succ j => rw [List.replicate_succ, List.getD_cons_succ]; exact ih j

lemma calculate_portfolio_eq_spec (df : String → List ℝ)
    (ws : List (String × ℝ)) (n : ℕ)
    (hlen : ∀ fw ∈ ws, (df fw.1).length = n) :
    calculate_portfolio df ws n = portfolioSpec df ws n := by
  rw [calculate_portfolio, portfolioSpec,
    portfolio_foldl_getD df n ws hlen (List.replicate n 0)
      (List.length_replicate n 0)]
  apply List.map_congr_left
  intro i _
  rw [getD_replicate_zero n i, zero_add]

lemma list_sum_pos_of_mem (l : List ℝ) (h0 : ∀ x ∈ l, 0 ≤ x) (x : ℝ)
    (hx : x ∈ l) (hxpos : 0 < x) : 0 < l.sum := by
  induction l with
  | nil => cases hx
  | cons a t ih =>
    rw [List.sum_cons]
    rcases List.mem_cons.mp hx with h1 | h2
    · subst h1
      exact add_pos_of_pos_of_nonneg hxpos
        (List.sum_nonneg (fun y hy => h0 y (List.mem_cons_of_mem x hy)))
    · exact add_pos_of_nonneg_of_pos (h0 a (by simp))
        (ih (fun y hy => h0 y (List.mem_cons_of_mem a hy)) h2)

/-- Claim C8: on a family of equal-length positive price series with
non-negative weights summing to 1, the aggregated portfolio is itself a
valid price series: it has the common length, every value is positive, and
entry `i` is the weighted sum `Σ weight[f] * price_f[i]`. -/
theorem C8_portfolio_is_valid_series (df : String → List ℝ)
    (ws : List (String × ℝ)) (n : ℕ) (hn : 2 ≤ n)
    (hlen : ∀ fw ∈ ws, (df fw.1).length = n)
    (hpos : ∀ fw ∈ ws, ∀ p ∈ df fw.1, 0 < p)
    (hw0 : ∀ fw ∈ ws, 0 ≤ fw.2)
    (hw1 : (ws.map (fun fw => fw.2)).sum = 1) :
    (calculate_portfolio df ws n).length = n ∧
    (∀ x ∈ calculate_portfolio df ws n, 0 < x) ∧
    calculate_portfolio df ws n = portfolioSpec df ws n := by
  have heq := calculate_portfolio_eq_spec df ws n hlen
  have hlength : (calculate_portfolio df ws n).length = n := by
    rw [heq, portfolioSpec, List.length_map, List.length_range]
  refine ⟨hlength, ?_, heq⟩
  intro x hx
  rw [heq, portfolioSpec] at hx
  rcases List.mem_map.mp hx with ⟨i, hi, hgi⟩
  have hin : i < n := List.mem_range.mp hi
  subst hgi
  have hex : ∃ fw ∈ ws, 0 < fw.2 := by
    by_contra hno
    push_neg at hno
    have hz : (ws.map (fun fw => fw.2)).sum = 0 := by
      apply List.sum_eq_zero
      intro y hy
      rcases List.mem_map.mp hy with ⟨fw, hfw, hyy⟩
      rw [← hyy]
      exact le_antisymm (hno fw hfw) (hw0 fw hfw)
    rw [hz] at hw1
    exact absurd hw1 (by norm_num)
  rcases hex with ⟨fw0, hfw0, hfw0pos⟩
  have hmem0 : (df fw0.1).getD i 0 ∈ df fw0.1 :=
    getD_mem_of_lt _ i (by rw [hlen fw0 hfw0]; omega)
  apply list_sum_pos_of_mem _ ?_ (fw0.2 * (df fw0.1).getD i 0)
    (List.mem_map_of_mem (fun fw => fw.2 * (df fw.1).getD i 0) hfw0)
    (mul_pos hfw0pos (hpos fw0 hfw0 _ hmem0))
  intro y hy
  rcases List.mem_map.mp hy with ⟨fw, hfw, hyy⟩
  rw [← hyy]
  have hmem : (df fw.1).getD i 0 ∈ df fw.1 :=
    getD_mem_of_lt _ i (by rw [hlen fw hfw]; omega)
  exact mul_nonneg (hw0 fw hfw) (le_of_lt (hpos fw hfw _ hmem))

/-- Witness for C8 at the concrete frame A = B = [1, 2] with weights
{A: 0.5, B: 0.5}. -/
theorem C8_portfolio_is_valid_series_witness :
    (calculate_portfolio (fun _ => [1, 2]) [("A", 0.5), ("B", 0.5)] 2).length
      = 2 ∧
    (∀ x ∈ calculate_portfolio (fun _ => [1, 2]) [("A", 0.5), ("B", 0.5)] 2,
      0 < x) ∧
    calculate_portfolio (fun _ => [1, 2]) [("A", 0.5), ("B", 0.5)] 2 =
      portfolioSpec (fun _ => [1, 2]) [("A", 0.5), ("B", 0.5)] 2 :=
  C8_portfolio_is_valid_series (fun _ => [1, 2]) [("A", 0.5), ("B", 0.5)] 2
    le_rfl (fun _ _ => rfl) (fun fw _ => by norm_num)
    (fun fw hfw => by fin_cases hfw <;> norm_num)
    (by norm_num)

end FundApp
